import Mathlib

/-!
Verification of the CineBrain movie-recommender against its specification.

The Python sources are shallowly embedded as Lean definitions:

* cinebrain/models/features.py    : clean_text, build_text_blob, the feature filter
* cinebrain/app/streamlit_app.py  : fmt_runtime, embed_query, recommend,
                                    explain_recommendation
* cinebrain/models/embeddings.py  : _is_vector_ok, _extract_vector, embed_one
* cinebrain/models/vector_index.py: build_faiss_index
* cinebrain/models/recommend.py   : embed_query, recommend_by_text

Numeric vectors are modelled over an arbitrary linear ordered commutative
ring R (the idealisation of float32 arithmetic); concrete witnesses use ℤ.
-/

namespace CineBrain

/-! ### Text cleaning (features.py, clean_text) -/

/-- Whitespace test used by Python's str.strip() and the regex \s
(restricted to the ASCII whitespace characters). -/
def isPySpace (c : Char) : Bool :=
  c = ' ' || c = '\t' || c = '\n' || c = '\r' || c = '\x0b' || c = '\x0c'

/-- Remove trailing characters satisfying isPySpace (the right half of
Python's str.strip()). -/
def dropTrail (l : List Char) : List Char :=
  (l.reverse.dropWhile isPySpace).reverse

/-- Python str.strip(): remove leading and trailing whitespace. -/
def pyStrip (l : List Char) : List Char :=
  dropTrail (l.dropWhile isPySpace)

/-- The effect of re.sub(r"\s+", " ", s): every maximal nonempty run of
whitespace characters is replaced by a single blank.  The boolean flag
records whether the previous character belonged to a whitespace run. -/
def squashAux : Bool → List Char → List Char
  | _, [] => []
  | prev, c :: rest =>
    if isPySpace c then
      if prev then squashAux true rest
      else ' ' :: squashAux true rest
    else c :: squashAux false rest

/-- Character-level body of clean_text: text.strip() followed by
re.sub(r"\s+", " ", _). -/
def cleanChars (l : List Char) : List Char :=
  squashAux false (pyStrip l)

/-- clean_text on an actual string. -/
def cleanStr (s : String) : String :=
  String.mk (cleanChars s.data)

/-- A Python value as seen by clean_text: either a str or anything else
(None, NaN, numbers, ...). -/
inductive PyVal where
  | str (s : String) : PyVal
  | nonStr : PyVal
deriving DecidableEq

/-- features.py clean_text: non-strings become "", strings are stripped and
their inner whitespace runs collapsed. -/
def clean_text : PyVal → String
  | .str s => cleanStr s
  | .nonStr => ""

/-- Python str.strip() on a String (also used by embed_one). -/
def pyStripStr (s : String) : String :=
  String.mk (pyStrip s.data)

/-! ### Feature building (features.py, build_text_blob and main) -/

/-- A raw movie row as read from the movies table; only the five text
columns cleaned by features.main matter for the blob. -/
structure RawRow where
  title : PyVal
  overview : PyVal
  genres : PyVal
  cast : PyVal
  director : PyVal
deriving DecidableEq

/-- A cleaned row: features.main has applied clean_text to every text
column. -/
structure CleanRow where
  title : String
  overview : String
  genres : String
  cast : String
  director : String
deriving DecidableEq

/-- The per-row cleaning step of features.main. -/
def cleanRow (r : RawRow) : CleanRow :=
  { title := clean_text r.title
    overview := clean_text r.overview
    genres := clean_text r.genres
    cast := clean_text r.cast
    director := clean_text r.director }

/-- features.py build_text_blob: concatenate the nonempty parts
(Python truthiness of a str is nonemptiness) with single blanks. -/
def build_text_blob (r : CleanRow) : String :=
  String.intercalate " " (
    (if r.title ≠ "" then ["Title: " ++ r.title ++ "."] else []) ++
    (if r.overview ≠ "" then [r.overview] else []) ++
    (if r.genres ≠ "" then ["Genres: " ++ r.genres ++ "."] else []) ++
    (if r.cast ≠ "" then ["Top Cast: " ++ r.cast ++ "."] else []) ++
    (if r.director ≠ "" then ["Directed by " ++ r.director ++ "."] else []))

/-- A row of the persisted feature table: the cleaned columns plus the
derived text blob. -/
structure FeatRow where
  row : CleanRow
  text_blob : String
deriving DecidableEq

/-- Clean a raw row and attach its text blob (features.main before the
filter). -/
def enrich (r : RawRow) : FeatRow :=
  { row := cleanRow r, text_blob := build_text_blob (cleanRow r) }

/-- features.main: clean all rows, build blobs, and keep exactly the rows
whose blob is longer than 30 characters. -/
def featureTable (rows : List RawRow) : List FeatRow :=
  (rows.map enrich).filter (fun fr => 30 < fr.text_blob.length)

/-! ### Runtime formatting (streamlit_app.py, fmt_runtime) -/

/-- The em-dash placeholder fmt_runtime returns for a missing or
non-numeric runtime. -/
def emDash : String := "—"

/-- The possible inputs of fmt_runtime: Python None, float NaN, a value
that is not an int or float at all, or an integer minute count. -/
inductive RuntimeVal where
  | missing : RuntimeVal
  | nan : RuntimeVal
  | nonNumeric : RuntimeVal
  | intMin (n : Int) : RuntimeVal

/-- streamlit_app.py fmt_runtime.  Python divmod is floor division, hence
Int.fdiv and Int.fmod; the truthiness tests on h and m are nonzeroness. -/
def fmt_runtime : RuntimeVal → String
  | .missing => emDash
  | .nan => emDash
  | .nonNumeric => emDash
  | .intMin n =>
    if Int.fdiv n 60 ≠ 0 ∧ Int.fmod n 60 ≠ 0 then
      toString (Int.fdiv n 60) ++ "h " ++ toString (Int.fmod n 60) ++ "m"
    else if Int.fdiv n 60 ≠ 0 then toString (Int.fdiv n 60) ++ "h"
    else toString (Int.fmod n 60) ++ "m"

/-- The mapping claimed by the specification for non-negative minute
counts, written over Nat arithmetic exactly as the spec words it. -/
def specRuntime (n : Nat) : String :=
  if 0 < n / 60 ∧ 0 < n % 60 then toString (n / 60) ++ "h " ++ toString (n % 60) ++ "m"
  else if 0 < n / 60 then toString (n / 60) ++ "h"
  else toString n ++ "m"

/-! ### Embedding service responses (embeddings.py and recommend.py) -/

/-- An entry of a returned embedding: a number, or something non-numeric. -/
inductive PyNum where
  | num (q : Int) : PyNum
  | nonNum : PyNum
deriving DecidableEq

/-- Whether an entry counts as a number for _is_vector_ok. -/
def pyNumOk : PyNum → Bool
  | .num _ => true
  | .nonNum => false

/-- The value found under the embedding field of a response: either an
object exposing a values attribute, or a plain Python list. -/
inductive EmbField where
  | withValues (vs : List PyNum) : EmbField
  | plainList (vs : List PyNum) : EmbField
deriving DecidableEq

/-- The Gemini SDK response shapes distinguished by the source: an object
with an embedding attribute, a dict with key embedding, a dict with key
embeddings holding a list whose first element may expose values (the
source indexes element 0 inside its try block; an empty list is not
modelled since no claim reaches it), a bare list of numbers, or anything
else. -/
inductive Resp where
  | objEmb (e : EmbField) : Resp
  | dictEmb (e : EmbField) : Resp
  | dictEmbs (first : Option (List PyNum)) : Resp
  | rawList (vs : List PyNum) : Resp
  | other : Resp
deriving DecidableEq

/-- One interaction with the embedding service: the call raised, or it
returned a response. -/
inductive EmbStep where
  | exn : EmbStep
  | resp (r : Resp) : EmbStep
deriving DecidableEq

/-- embeddings.py _is_vector_ok on an extracted list: nonempty and all
entries numeric. -/
def is_vector_ok (vs : List PyNum) : Bool :=
  !vs.isEmpty && vs.all pyNumOk

/-- embeddings.py _extract_vector: normalise the supported response shapes
to a plain list, returning none when nothing matches. -/
def extract_vector : Resp → Option (List PyNum)
  | .objEmb (.withValues vs) => some vs
  | .objEmb (.plainList vs) => some vs
  | .dictEmb (.plainList vs) => some vs
  | .dictEmb (.withValues vs) => some vs
  | .dictEmbs (some vs) => some vs
  | .dictEmbs none => none
  | .rawList _ => none
  | .other => none

/-- The fallback inside embed_one: if the extracted value is not a valid
vector, the response itself is accepted when it is a bare numeric list. -/
def rawFallback : Resp → Option (List PyNum)
  | .rawList vs => if is_vector_ok vs then some vs else none
  | _ => none

/-- One loop iteration of embed_one on a non-raising response: extract,
validate, else fall back to the bare-list check; none means the attempt
failed and the loop continues. -/
def tryOnce (r : Resp) : Option (List PyNum) :=
  match extract_vector r with
  | some v => if is_vector_ok v then some v else rawFallback r
  | none => rawFallback r

/-- The retry loop of embed_one: svc gives the outcome of each attempt
(numbered from 1), fuel is the remaining retry budget. -/
def embed_one_go (svc : Nat → EmbStep) : Nat → Nat → Option (List PyNum)
  | _, 0 => none
  | attempt, fuel + 1 =>
    match svc attempt with
    | .exn => embed_one_go svc (attempt + 1) fuel
    | .resp r =>
      match tryOnce r with
      | some v => some v
      | none => embed_one_go svc (attempt + 1) fuel

/-- embeddings.py embed_one with its default retry budget of 3: empty or
missing text returns none before any service call, otherwise up to three
attempts are made. -/
def embed_one (text : Option String) (svc : Nat → EmbStep) : Option (List PyNum) :=
  if pyStripStr (text.getD "") = "" then none
  else embed_one_go svc 1 3

/-- Number of service calls embed_one performs. -/
def embed_one_go_calls (svc : Nat → EmbStep) : Nat → Nat → Nat
  | _, 0 => 0
  | attempt, fuel + 1 =>
    match svc attempt with
    | .exn => 1 + embed_one_go_calls svc (attempt + 1) fuel
    | .resp r =>
      match tryOnce r with
      | some _ => 1
      | none => 1 + embed_one_go_calls svc (attempt + 1) fuel

/-- Number of service calls made by embed_one on a given text. -/
def embed_one_calls (text : Option String) (svc : Nat → EmbStep) : Nat :=
  if pyStripStr (text.getD "") = "" then 0
  else embed_one_go_calls svc 1 3

/-- np.array(vs, dtype float32) applied to a Python list: raises (hence
none, the exception being caught) when an entry is not numeric. -/
def npArrayNums (vs : List PyNum) : Option (List PyNum) :=
  if vs.all pyNumOk then some vs else none

/-- recommend.py / streamlit_app.py embed_query: a single service call
inside one try block.  Only two response shapes are handled: an object
whose embedding exposes values, and a dict whose embedding value converts
through np.array.  An embedding attribute that is a plain list makes
resp.embedding.values raise AttributeError (caught, none); a dict whose
embedding is an object makes np.array(..., float32) raise (caught, none);
every other shape falls through to the final return None. -/
def embed_query : EmbStep → Option (List PyNum)
  | .exn => none
  | .resp r =>
    match r with
    | .objEmb (.withValues vs) => npArrayNums vs
    | .objEmb (.plainList _) => none
    | .dictEmb (.plainList vs) => npArrayNums vs
    | .dictEmb (.withValues _) => none
    | .dictEmbs _ => none
    | .rawList _ => none
    | .other => none

/-! ### Explanation generator (streamlit_app.py, explain_recommendation) -/

/-- Outcome of the single generate_content call: an exception, or a
response whose text field may be absent. -/
inductive GenOutcome where
  | exn : GenOutcome
  | resp (text : Option String) : GenOutcome

/-- streamlit_app.py explain_recommendation: the try block returns the
stripped text only when the response and its text are truthy; every
failure path returns None. -/
def explain_recommendation : GenOutcome → Option String
  | .exn => none
  | .resp none => none
  | .resp (some t) => if t = "" then none else some (pyStripStr t)

/-- The explanation pass of the UI loop: one independent service outcome
per rendered item. -/
def explanationsFor (outcomes : List GenOutcome) : List (Option String) :=
  outcomes.map explain_recommendation

/-! ### Vectors and the flat inner-product index

Float32 arithmetic is idealised over an arbitrary linear ordered
commutative ring R; every theorem below holds for every such R, and
witnesses instantiate R with ℤ.  faiss.normalize_L2 divides each vector by
its Euclidean norm, a componentwise rescaling whose square root has no
exact counterpart in R; the development therefore passes the
normalisation map nrm as an explicit parameter, applied exactly where the
source calls faiss.normalize_L2, and the theorems hold for every nrm. -/

variable {R : Type} [LinearOrderedCommRing R] {α : Type}

/-- Inner product of two vectors (np.dot on equal-length float rows). -/
def dot : List R → List R → R
  | [], _ => 0
  | _, [] => 0
  | a :: as_, b :: bs => a * b + dot as_ bs

/-- The ranking order of faiss IndexFlatIP search results: higher
similarity first, equal similarities resolved by smaller insertion index
(the deterministic tie-break of the faiss result heaps). -/
def simRel (a b : Nat × R) : Prop :=
  b.2 < a.2 ∨ (a.2 = b.2 ∧ a.1 ≤ b.1)

instance : DecidableRel (simRel (R := R)) := fun a b =>
  inferInstanceAs (Decidable (b.2 < a.2 ∨ (a.2 = b.2 ∧ a.1 ≤ b.1)))

instance : IsTotal (Nat × R) simRel where
  total a b := by
    rcases lt_trichotomy a.2 b.2 with h | h | h
    · exact Or.inr (Or.inl h)
    · rcases Nat.le_total a.1 b.1 with h1 | h1
      · exact Or.inl (Or.inr ⟨h, h1⟩)
      · exact Or.inr (Or.inr ⟨h.symm, h1⟩)
    · exact Or.inl (Or.inl h)

instance : IsTrans (Nat × R) simRel where
  trans a b c hab hbc := by
    rcases hab with hab | ⟨hab, hab1⟩
    · rcases hbc with hbc | ⟨hbc, _⟩
      · exact Or.inl (hbc.trans hab)
      · exact Or.inl (hbc ▸ hab)
    · rcases hbc with hbc | ⟨hbc, hbc1⟩
      · exact Or.inl (hab ▸ hbc)
      · exact Or.inr ⟨hab.trans hbc, hab1.trans hbc1⟩

/-- Every stored vector paired with its inner product against the query,
sorted by descending similarity with ties in insertion order: the full
ranking an exact flat inner-product index computes. -/
def rankAll (xb : List (List R)) (q : List R) : List (Nat × R) :=
  List.insertionSort simRel ((xb.map (fun v => dot q v)).enum)

/-- The similarity faiss reports for the padding entries it emits when k
exceeds the number of stored vectors (the heap initialisation value, an
unreachably low float; 2 ^ 128 is just above FLT_MAX). -/
def padSim : R := -(2 ^ 128)

/-- faiss IndexFlatIP search for one query: the k best (label, score)
pairs in ranking order, padded with label -1 entries when fewer than k
vectors are stored. -/
def topk (xb : List (List R)) (q : List R) (k : Nat) : List (Int × R) :=
  ((rankAll xb q).take k).map (fun p => ((p.1 : Int), p.2)) ++
    List.replicate (k - ((rankAll xb q).take k).length) ((-1 : Int), padSim)

/-- The persisted faiss index: its dimension and its stored vectors in
insertion order. -/
structure FIndex (R : Type) where
  d : Nat
  xb : List (List R)
deriving DecidableEq

/-- The errors the faiss search wrapper raises: a query of the wrong
dimension, or a non-positive k (both are assertions in the Python
bindings, raised before any result exists). -/
inductive SearchErr where
  | dimMismatch : SearchErr
  | kNonPositive : SearchErr
deriving DecidableEq

/-- index.search(qvec, k) for a single already-normalised query row. -/
def faissSearch (idx : FIndex R) (q : List R) (k : Int) : Except SearchErr (List (Int × R)) :=
  if q.length ≠ idx.d then .error .dimMismatch
  else if k ≤ 0 then .error .kNonPositive
  else .ok (topk idx.xb q k.toNat)

/-! ### Index construction (vector_index.py, build_faiss_index) -/

/-- One row of the embeddings table: the metadata the sidecar keeps and
the embedding vector. -/
structure EmbRow (R : Type) (α : Type) where
  meta : α
  embedding : List R
deriving DecidableEq

/-- The failures of build_faiss_index before any artifact is written:
np.vstack raises on an empty row set and on rows of unequal length. -/
inductive BuildErr where
  | emptyInput : BuildErr
  | dimMismatch : BuildErr
deriving DecidableEq

/-- vector_index.py build_faiss_index: stack the embeddings (np.vstack
fails on zero rows or inconsistent dimensions — in either case neither
the index nor the sidecar is produced), L2-normalise every row, add them
to a flat inner-product index in order, and persist the metadata rows in
that same order as the sidecar. -/
def build_faiss_index (nrm : List R → List R) (rows : List (EmbRow R α)) :
    Except BuildErr (FIndex R × List α) :=
  match rows with
  | [] => .error .emptyInput
  | r0 :: _ =>
    if rows.all (fun r => r.embedding.length = r0.embedding.length) then
      .ok ({ d := r0.embedding.length, xb := rows.map (fun r => nrm r.embedding) },
           rows.map (fun r => r.meta))
    else .error .dimMismatch

/-! ### The two recommend paths (streamlit_app.py and recommend.py) -/

/-- The position pandas resolves a (possibly negative) integer label to:
negative labels count from the end. -/
def pyPos (len : Nat) (i : Int) : Int :=
  if i < 0 then (len : Int) + i else i

/-- pandas positional indexing mapping.iloc[i]: negative positions count
from the end; anything out of range raises IndexError (none). -/
def iloc (m : List α) (i : Int) : Option α :=
  if 0 ≤ pyPos m.length i ∧ pyPos m.length i < (m.length : Int) then
    m.get? (pyPos m.length i).toNat
  else none

/-- mapping.iloc applied to a whole label list: any out-of-range label
raises, aborting the lookup. -/
def ilocAll (m : List α) : List Int → Option (List α)
  | [] => some []
  | i :: is_ =>
    match iloc m i, ilocAll m is_ with
    | some r, some rs => some (r :: rs)
    | _, _ => none

/-- The exceptions the online paths can propagate: the search assertions,
or an out-of-range positional join. -/
inductive AppErr where
  | searchRaised : AppErr
  | ilocRaised : AppErr
deriving DecidableEq

/-- streamlit_app.py recommend: on a failed query embedding return an
empty DataFrame; otherwise normalise the query, search, and join the
returned labels positionally to the metadata sidecar, pairing each row
with its similarity score. -/
def recommendApp (nrm : List R → List R) (mapping : List α) (idx : FIndex R)
    (emb : Option (List R)) (k : Int) : Except AppErr (List (α × R)) :=
  match emb with
  | none => .ok []
  | some q =>
    match faissSearch idx (nrm q) k with
    | .error _ => .error .searchRaised
    | .ok pairs =>
      match ilocAll mapping (pairs.map Prod.fst) with
      | none => .error .ilocRaised
      | some rows => .ok (rows.zip (pairs.map Prod.snd))

/-- recommend.py recommend_by_text: identical pipeline, but a failed
query embedding returns Python None (modelled as Option.none inside ok)
rather than an empty result; the final column selection of the source
keeps row count and order and is not modelled. -/
def recommend_by_text (nrm : List R → List R) (mapping : List α) (idx : FIndex R)
    (emb : Option (List R)) (k : Int) : Except AppErr (Option (List (α × R))) :=
  match emb with
  | none => .ok none
  | some q =>
    match faissSearch idx (nrm q) k with
    | .error _ => .error .searchRaised
    | .ok pairs =>
      match ilocAll mapping (pairs.map Prod.fst) with
      | none => .error .ilocRaised
      | some rows => .ok (some (rows.zip (pairs.map Prod.snd)))

/-! ### Properties of the text cleaner (claim C10) -/

/-- The first character, if any, is not whitespace. -/
def noLeadSpace : List Char → Bool
  | [] => true
  | c :: _ => !isPySpace c

/-- The last character, if any, is not whitespace. -/
def noTrailSpace (l : List Char) : Bool :=
  noLeadSpace l.reverse

/-- No two adjacent characters are both whitespace. -/
def noDoubleSpace : List Char → Bool
  | [] => true
  | [_] => true
  | a :: b :: t => !(isPySpace a && isPySpace b) && noDoubleSpace (b :: t)

theorem head_dropWhile_space :
    ∀ (l : List Char) (c : Char),
      (l.dropWhile isPySpace).head? = some c → isPySpace c = false := by
  intro l
  induction l with
  | nil => intro c h; simp [List.dropWhile] at h
  | cons a t ih =>
    intro c h
    cases ha : isPySpace a with
    | true =>
      rw [List.dropWhile_cons, if_pos ha] at h
      exact ih c h
    | false =>
      rw [List.dropWhile_cons, if_neg (by simp [ha])] at h
      simp at h
      exact h ▸ ha

theorem dropTrail_append (l : List Char) : ∃ t, dropTrail l ++ t = l := by
  refine ⟨(l.reverse.takeWhile isPySpace).reverse, ?_⟩
  have h := congrArg List.reverse
    (List.takeWhile_append_dropWhile (p := isPySpace) (l := l.reverse))
  rwa [List.reverse_append, List.reverse_reverse] at h

theorem head_dropTrail (l : List Char) (c : Char)
    (h : (dropTrail l).head? = some c) : l.head? = some c := by
  obtain ⟨t, ht⟩ := dropTrail_append l
  cases hd : dropTrail l with
  | nil => rw [hd] at h; simp at h
  | cons a r =>
    rw [hd] at h ht
    simp at h
    rw [← ht, h]
    rfl

theorem getLast_dropTrail (l : List Char) (c : Char)
    (h : (dropTrail l).getLast? = some c) : isPySpace c = false := by
  unfold dropTrail at h
  rw [List.getLast?_reverse] at h
  exact head_dropWhile_space l.reverse c h

theorem pyStrip_head (l : List Char) (c : Char)
    (h : (pyStrip l).head? = some c) : isPySpace c = false := by
  unfold pyStrip at h
  exact head_dropWhile_space l c (head_dropTrail _ c h)

theorem pyStrip_getLast (l : List Char) (c : Char)
    (h : (pyStrip l).getLast? = some c) : isPySpace c = false := by
  unfold pyStrip at h
  exact getLast_dropTrail _ c h

theorem squash_head_true :
    ∀ (l : List Char) (c : Char),
      (squashAux true l).head? = some c → isPySpace c = false := by
  intro l
  induction l with
  | nil => intro c h; simp [squashAux] at h
  | cons a t ih =>
    intro c h
    cases ha : isPySpace a with
    | true =>
      rw [squashAux, if_pos ha] at h
      exact ih c h
    | false =>
      rw [squashAux, if_neg (by simp [ha])] at h
      simp at h
      exact h ▸ ha

theorem squash_empty :
    ∀ (l : List Char) (b : Bool) (c : Char),
      squashAux b l = [] → l.getLast? = some c → isPySpace c = true := by
  intro l
  induction l with
  | nil => intro b c _ hc; simp at hc
  | cons a t ih =>
    intro b c h hc
    cases ha : isPySpace a with
    | true =>
      cases b with
      | false => rw [squashAux, if_pos ha] at h; simp at h
      | true =>
        rw [squashAux, if_pos ha] at h
        cases t with
        | nil => simp at hc; exact hc ▸ ha
        | cons x r =>
          rw [List.getLast?_cons_cons] at hc
          exact ih true c h hc
    | false =>
      rw [squashAux, if_neg (by simp [ha])] at h
      simp at h

theorem squash_noDouble :
    ∀ (l : List Char) (b : Bool), noDoubleSpace (squashAux b l) = true := by
  intro l
  induction l with
  | nil => intro b; rfl
  | cons a t ih =>
    intro b
    cases ha : isPySpace a with
    | true =>
      cases b with
      | true =>
        rw [squashAux, if_pos ha]
        exact ih true
      | false =>
        rw [squashAux, if_pos ha]
        cases hz : squashAux true t with
        | nil => rfl
        | cons x r =>
          have hxs : isPySpace x = false := squash_head_true t x (by rw [hz]; rfl)
          have hx := ih true
          rw [hz] at hx
          simp [noDoubleSpace, hxs, hx]
    | false =>
      rw [squashAux, if_neg (by simp [ha])]
      cases hz : squashAux false t with
      | nil => rfl
      | cons x r =>
        have hx := ih false
        rw [hz] at hx
        simp [noDoubleSpace, ha, hx]

theorem squash_getLast :
    ∀ (l : List Char) (b : Bool),
      (∀ c', l.getLast? = some c' → isPySpace c' = false) →
      ∀ c, (squashAux b l).getLast? = some c → isPySpace c = false := by
  intro l
  induction l with
  | nil => intro b _ c h; simp [squashAux] at h
  | cons a t ih =>
    intro b hl c h
    cases ha : isPySpace a with
    | true =>
      cases t with
      | nil =>
        have := hl a (by simp)
        rw [ha] at this
        cases this
      | cons x r =>
        have hl' : ∀ c', (x :: r).getLast? = some c' → isPySpace c' = false := by
          intro c' hc'
          exact hl c' (by rw [List.getLast?_cons_cons]; exact hc')
        cases b with
        | true =>
          rw [squashAux, if_pos ha] at h
          exact ih true hl' c h
        | false =>
          rw [squashAux, if_pos ha, if_neg Bool.false_ne_true] at h
          cases hz : squashAux true (x :: r) with
          | nil =>
            cases hgl : (x :: r).getLast? with
            | none => simp [List.getLast?_eq_none_iff] at hgl
            | some c' =>
              have hsp := squash_empty (x :: r) true c' hz hgl
              have hns := hl' c' hgl
              rw [hns] at hsp
              cases hsp
          | cons y s =>
            rw [hz, List.getLast?_cons_cons, ← hz] at h
            exact ih true hl' c h
    | false =>
      rw [squashAux, if_neg (by simp [ha])] at h
      cases hz : squashAux false t with
      | nil =>
        rw [hz] at h
        simp at h
        exact h ▸ ha
      | cons y s =>
        cases t with
        | nil => simp [squashAux] at hz
        | cons x r =>
          have hl' : ∀ c', (x :: r).getLast? = some c' → isPySpace c' = false := by
            intro c' hc'
            exact hl c' (by rw [List.getLast?_cons_cons]; exact hc')
          rw [hz, List.getLast?_cons_cons, ← hz] at h
          exact ih false hl' c h

theorem squash_blank :
    ∀ (l : List Char) (b : Bool) (c : Char),
      c ∈ squashAux b l → isPySpace c = true → c = ' ' := by
  intro l
  induction l with
  | nil => intro b c h _; simp [squashAux] at h
  | cons a t ih =>
    intro b c h hc
    cases ha : isPySpace a with
    | true =>
      cases b with
      | true =>
        rw [squashAux, if_pos ha] at h
        exact ih true c h hc
      | false =>
        rw [squashAux, if_pos ha] at h
        rcases List.mem_cons.mp h with h | h
        · exact h
        · exact ih true c h hc
    | false =>
      rw [squashAux, if_neg (by simp [ha])] at h
      rcases List.mem_cons.mp h with h | h
      · rw [h] at hc; rw [ha] at hc; exact (Bool.false_ne_true hc).elim
      · exact ih false c h hc

theorem squash_id :
    ∀ (l : List Char) (b : Bool),
      noDoubleSpace l = true →
      (∀ c ∈ l, isPySpace c = true → c = ' ') →
      (b = true → ∀ c, l.head? = some c → isPySpace c = false) →
      squashAux b l = l := by
  intro l
  induction l with
  | nil => intro b _ _ _; rfl
  | cons a t ih =>
    intro b hnd hbl hb
    cases ha : isPySpace a with
    | true =>
      cases b with
      | true =>
        have := hb rfl a rfl
        rw [ha] at this
        cases this
      | false =>
        have haa : a = ' ' := hbl a (List.mem_cons_self a t) ha
        rw [squashAux, if_pos ha]
        cases t with
        | nil => rw [haa]; rfl
        | cons x r =>
          have hnd' : noDoubleSpace (x :: r) = true := by
            rw [noDoubleSpace] at hnd
            exact (Bool.and_eq_true_iff.mp hnd).2
          have hxs : isPySpace x = false := by
            rw [noDoubleSpace] at hnd
            have h1 := (Bool.and_eq_true_iff.mp hnd).1
            rw [ha] at h1
            cases hx : isPySpace x with
            | false => rfl
            | true => rw [hx] at h1; simp at h1
          have hrec := ih true hnd'
            (fun c hc hsp => hbl c (List.mem_cons_of_mem a hc) hsp)
            (fun _ c hc => by
              simp at hc
              exact hc ▸ hxs)
          rw [hrec, haa, if_neg Bool.false_ne_true]
    | false =>
      rw [squashAux, if_neg (by simp [ha])]
      have hnd' : noDoubleSpace t = true := by
        cases t with
        | nil => rfl
        | cons x r =>
          rw [noDoubleSpace] at hnd
          exact (Bool.and_eq_true_iff.mp hnd).2
      rw [ih false hnd'
        (fun c hc hsp => hbl c (List.mem_cons_of_mem a hc) hsp)
        (fun hfalse => by cases hfalse)]

theorem cleanChars_head (l : List Char) (c : Char)
    (h : (cleanChars l).head? = some c) : isPySpace c = false := by
  unfold cleanChars at h
  cases hp : pyStrip l with
  | nil => rw [hp] at h; simp [squashAux] at h
  | cons a t =>
    have ha : isPySpace a = false := pyStrip_head l a (by rw [hp]; rfl)
    rw [hp, squashAux, if_neg (by simp [ha])] at h
    simp at h
    exact h ▸ ha

theorem cleanChars_getLast (l : List Char) (c : Char)
    (h : (cleanChars l).getLast? = some c) : isPySpace c = false := by
  unfold cleanChars at h
  exact squash_getLast (pyStrip l) false
    (fun c' hc' => pyStrip_getLast l c' hc') c h

theorem cleanChars_noLead (l : List Char) : noLeadSpace (cleanChars l) = true := by
  cases hz : cleanChars l with
  | nil => rfl
  | cons c r =>
    have := cleanChars_head l c (by rw [hz]; rfl)
    simp [noLeadSpace, this]

theorem cleanChars_noTrail (l : List Char) : noTrailSpace (cleanChars l) = true := by
  unfold noTrailSpace
  cases hz : (cleanChars l).reverse with
  | nil => rfl
  | cons c r =>
    have hc : (cleanChars l).getLast? = some c := by
      rw [← List.head?_reverse, hz]
      rfl
    have := cleanChars_getLast l c hc
    simp [noLeadSpace, this]

theorem cleanChars_noDouble (l : List Char) : noDoubleSpace (cleanChars l) = true :=
  squash_noDouble (pyStrip l) false

theorem dropWhile_of_head (l : List Char)
    (h : ∀ c, l.head? = some c → isPySpace c = false) :
    l.dropWhile isPySpace = l := by
  cases l with
  | nil => rfl
  | cons a t =>
    have := h a rfl
    rw [List.dropWhile_cons, if_neg (by simp [this])]

theorem cleanChars_strip_id (l : List Char) :
    pyStrip (cleanChars l) = cleanChars l := by
  unfold pyStrip dropTrail
  rw [dropWhile_of_head _ (fun c h => cleanChars_head l c h)]
  rw [dropWhile_of_head _ (fun c h =>
    cleanChars_getLast l c (by rwa [List.head?_reverse] at h))]
  exact List.reverse_reverse _

theorem cleanChars_idem (l : List Char) :
    cleanChars (cleanChars l) = cleanChars l := by
  show squashAux false (pyStrip (cleanChars l)) = cleanChars l
  rw [cleanChars_strip_id l]
  exact squash_id (cleanChars l) false (cleanChars_noDouble l)
    (fun c hc hsp => squash_blank (pyStrip l) false c hc hsp)
    (fun hfalse => by cases hfalse)

/-- C10: the text cleaner is total — every Python value is mapped to a
string, the empty string for non-strings — and its output has no leading
or trailing whitespace and no two adjacent whitespace characters, and
cleaning a second time changes nothing (idempotence). -/
theorem clean_text_props :
    clean_text PyVal.nonStr = "" ∧
    ∀ v : PyVal,
      noLeadSpace (clean_text v).data = true ∧
      noTrailSpace (clean_text v).data = true ∧
      noDoubleSpace (clean_text v).data = true ∧
      clean_text (PyVal.str (clean_text v)) = clean_text v := by
  refine ⟨rfl, ?_⟩
  intro v
  cases v with
  | nonStr => exact ⟨rfl, rfl, rfl, rfl⟩
  | str s =>
    refine ⟨cleanChars_noLead s.data, cleanChars_noTrail s.data,
            cleanChars_noDouble s.data, ?_⟩
    show String.mk (cleanChars (cleanChars s.data)) = String.mk (cleanChars s.data)
    rw [cleanChars_idem s.data]

/-! ### Claims C7, C8, C9 -/

/-- The one-character-title row named by the specification: no overview,
genres, cast or director. -/
def xRow : RawRow :=
  { title := PyVal.str "X", overview := PyVal.nonStr, genres := PyVal.nonStr,
    cast := PyVal.nonStr, director := PyVal.nonStr }

/-- A row with an informative blob, used to witness that the filter keeps
long-blob rows. -/
def goodRow : RawRow :=
  { title := PyVal.str "Inception",
    overview := PyVal.str "A thief steals secrets from inside dreams.",
    genres := PyVal.str "Science Fiction",
    cast := PyVal.nonStr, director := PyVal.nonStr }

/-- C7: a processed item appears in the feature table iff its text blob,
built from the cleaned title, overview, genres, cast and director fields,
is strictly longer than 30 characters; in particular the row whose only
field is the one-character title X is excluded. -/
theorem featureTable_iff (rows : List RawRow) :
    (∀ fr ∈ featureTable rows, 30 < fr.text_blob.length) ∧
    (∀ r ∈ rows, 30 < (enrich r).text_blob.length → enrich r ∈ featureTable rows) ∧
    featureTable [xRow] = [] := by
  refine ⟨?_, ?_, ?_⟩
  · intro fr hfr
    exact of_decide_eq_true (List.mem_filter.mp hfr).2
  · intro r hr h
    exact List.mem_filter.mpr ⟨List.mem_map_of_mem enrich hr, decide_eq_true h⟩
  · rfl

/-- Witness for C7: a concrete informative row passes the length bound
and is kept by the filter. -/
theorem featureTable_iff_witness :
    30 < (enrich goodRow).text_blob.length ∧
    enrich goodRow ∈ featureTable [goodRow] := by
  refine ⟨by decide, ?_⟩
  exact (featureTable_iff [goodRow]).2.1 goodRow (List.mem_singleton.mpr rfl) (by decide)

/-- C8: fmt_runtime maps every non-negative integer minute count to the
hour-and-minute rendering the specification states, and a missing, NaN or
non-numeric input to the em-dash placeholder; in particular 134, 60 and
45 minutes format as claimed. -/
theorem fmt_runtime_spec :
    (∀ n : Nat, fmt_runtime (RuntimeVal.intMin (Int.ofNat n)) = specRuntime n) ∧
    fmt_runtime RuntimeVal.missing = emDash ∧
    fmt_runtime RuntimeVal.nan = emDash ∧
    fmt_runtime RuntimeVal.nonNumeric = emDash ∧
    fmt_runtime (RuntimeVal.intMin 134) = "2h 14m" ∧
    fmt_runtime (RuntimeVal.intMin 60) = "1h" ∧
    fmt_runtime (RuntimeVal.intMin 45) = "45m" := by
  refine ⟨?_, rfl, rfl, rfl, by decide, by decide, by decide⟩
  intro n
  have hd : Int.fdiv (Int.ofNat n) 60 = Int.ofNat (n / 60) := by cases n <;> rfl
  have hm : Int.fmod (Int.ofNat n) 60 = Int.ofNat (n % 60) := by cases n <;> rfl
  have hts : ∀ m : Nat, toString (Int.ofNat m) = toString m := fun _ => rfl
  have hz : ∀ m : Nat, (Int.ofNat m = 0) ↔ m = 0 :=
    fun m => ⟨fun h => Int.ofNat.inj h, fun h => by rw [h]; rfl⟩
  simp only [fmt_runtime, specRuntime]
  rw [hd, hm]
  simp only [hts, ne_eq, hz]
  by_cases h1 : n / 60 = 0
  · rw [if_neg (fun hc => hc.1 h1), if_neg (fun hc => hc h1),
        if_neg (fun hc => by omega), if_neg (by omega)]
    have hmod : n % 60 = n := by omega
    rw [hmod]
  · by_cases h2 : n % 60 = 0
    · rw [if_neg (fun hc => hc.2 h2), if_pos h1,
          if_neg (fun hc => by omega), if_pos (by omega)]
    · rw [if_pos ⟨h1, h2⟩, if_pos ⟨by omega, by omega⟩]

/-- C9: explain_recommendation is a total function of the service
outcome: it never propagates an exception, it returns none on every
failure (raised call, absent or empty response text), and the
explanation pass maps rendered items one by one, so a failure for one
item leaves every other item and the overall flow unchanged. -/
theorem explain_best_effort :
    (∀ o : GenOutcome, explain_recommendation o = none ∨
      ∃ t, o = GenOutcome.resp (some t) ∧ t ≠ "" ∧
        explain_recommendation o = some (pyStripStr t)) ∧
    explain_recommendation GenOutcome.exn = none ∧
    explain_recommendation (GenOutcome.resp none) = none ∧
    explain_recommendation (GenOutcome.resp (some "")) = none ∧
    ∀ outcomes : List GenOutcome,
      (explanationsFor outcomes).length = outcomes.length := by
  refine ⟨?_, rfl, rfl, by simp [explain_recommendation], ?_⟩
  · intro o
    cases o with
    | exn => exact Or.inl rfl
    | resp t =>
      cases t with
      | none => exact Or.inl rfl
      | some t =>
        by_cases h : t = ""
        · exact Or.inl (by simp [explain_recommendation, h])
        · exact Or.inr ⟨t, rfl, h, by simp [explain_recommendation, h]⟩
  · intro outcomes
    simp [explanationsFor]

/-! ### Claims C4, C5: index construction -/

/-- C4: the index build fails on zero rows (EmptyInputError) and on rows
of inconsistent vector length (DimensionMismatchError); in either case an
error is returned before anything is built, so no index or sidecar
artifact exists. -/
theorem build_faiss_index_failures (nrm : List R → List R) (r0 : EmbRow R α)
    (rows : List (EmbRow R α))
    (h : ¬ ∀ r ∈ r0 :: rows, r.embedding.length = r0.embedding.length) :
    build_faiss_index nrm ([] : List (EmbRow R α)) = .error .emptyInput ∧
    build_faiss_index nrm (r0 :: rows) = .error .dimMismatch := by
  refine ⟨rfl, ?_⟩
  have hb : ((r0 :: rows).all
      (fun r => r.embedding.length = r0.embedding.length)) ≠ true := by
    intro hall
    exact h (fun r hr => of_decide_eq_true (List.all_eq_true.mp hall r hr))
  simp only [build_faiss_index, if_neg hb]

/-- Witness for C4: the empty input and a pair of rows with vector
lengths 2 and 1. -/
theorem build_faiss_index_failures_witness :
    build_faiss_index (R := Int) (α := String) id [] = .error .emptyInput ∧
    build_faiss_index (R := Int) id [⟨"A", [1, 2]⟩, ⟨"B", [3]⟩] = .error .dimMismatch :=
  build_faiss_index_failures id ⟨"A", [1, 2]⟩ [⟨"B", [3]⟩] (by decide)

/-- C5: every successful build stores exactly one vector per sidecar row,
and position i of the sidecar is the metadata of the row whose
(normalised) vector was inserted i-th into the index. -/
theorem build_faiss_index_alignment (nrm : List R → List R)
    (rows : List (EmbRow R α)) (idx : FIndex R) (sidecar : List α)
    (h : build_faiss_index nrm rows = .ok (idx, sidecar)) :
    idx.xb.length = sidecar.length ∧
    sidecar.length = rows.length ∧
    ∀ i : Nat, sidecar[i]? = (rows[i]?).map (fun r => r.meta) ∧
      idx.xb[i]? = (rows[i]?).map (fun r => nrm r.embedding) := by
  cases rows with
  | nil => exact absurd h (by simp [build_faiss_index])
  | cons r0 rest =>
    rw [build_faiss_index] at h
    by_cases hb : ((r0 :: rest).all
        (fun r => r.embedding.length = r0.embedding.length)) = true
    · rw [if_pos hb, Except.ok.injEq, Prod.mk.injEq] at h
      obtain ⟨hidx, hside⟩ := h
      subst hidx hside
      refine ⟨by simp, by simp, ?_⟩
      intro i
      exact ⟨List.getElem?_map (fun r => r.meta) (r0 :: rest) i,
             List.getElem?_map (fun r => nrm r.embedding) (r0 :: rest) i⟩
    · rw [if_neg hb] at h
      exact absurd h (by simp)

/-- Witness for C5: a concrete two-row build with the identity
normalisation. -/
theorem build_faiss_index_alignment_witness :
    (⟨1, [[1], [2]]⟩ : FIndex Int).xb.length = (["A", "B"] : List String).length ∧
    (["A", "B"] : List String).length
      = [(⟨"A", [1]⟩ : EmbRow Int String), ⟨"B", [2]⟩].length ∧
    ∀ i : Nat,
      (["A", "B"] : List String)[i]?
        = ([(⟨"A", [1]⟩ : EmbRow Int String), ⟨"B", [2]⟩][i]?).map (fun r => r.meta) ∧
      (⟨1, [[1], [2]]⟩ : FIndex Int).xb[i]?
        = ([(⟨"A", [1]⟩ : EmbRow Int String), ⟨"B", [2]⟩][i]?).map (fun r => id r.embedding) :=
  build_faiss_index_alignment id [⟨"A", [1]⟩, ⟨"B", [2]⟩] ⟨1, [[1], [2]]⟩ ["A", "B"] rfl

/-! ### Claim C6: build-time versus query-time embedding -/

/-- C6 counterexample: on a response whose embedding attribute is a plain
list, the build-time embed_one extracts the vector while the query-time
embed_query returns none — the two paths are not the same function. -/
theorem embed_paths_counterexample :
    embed_one (some "movie")
        (fun _ => EmbStep.resp (Resp.objEmb (EmbField.plainList [PyNum.num 1])))
      = some [PyNum.num 1] ∧
    embed_query (EmbStep.resp (Resp.objEmb (EmbField.plainList [PyNum.num 1]))) = none ∧
    some [PyNum.num 1] ≠ (none : Option (List PyNum)) :=
  ⟨rfl, rfl, by simp⟩

/-- C6 amended: both paths call the same embedding service with the same
model identifier, and on the canonical object-with-values response shape
they extract the same vector; but they are distinct functions — embed_one
makes up to 3 attempts where embed_query makes exactly one, and the two
disagree on the other response shapes. -/
theorem embed_paths_amended (vs : List PyNum) (h : is_vector_ok vs = true) :
    embed_one (some "q") (fun _ => EmbStep.resp (Resp.objEmb (EmbField.withValues vs)))
      = some vs ∧
    embed_query (EmbStep.resp (Resp.objEmb (EmbField.withValues vs))) = some vs ∧
    embed_one_calls (some "q")
        (fun _ => EmbStep.resp (Resp.objEmb (EmbField.withValues vs))) = 1 ∧
    embed_one_calls (some "q") (fun _ => EmbStep.exn) = 3 := by
  have hall : vs.all pyNumOk = true := (Bool.and_eq_true_iff.mp h).2
  have hcond : ¬ (pyStripStr "q" = "") := by decide
  have ht : tryOnce (Resp.objEmb (EmbField.withValues vs)) = some vs := by
    simp [tryOnce, extract_vector, h]
  refine ⟨?_, ?_, ?_, rfl⟩
  · simp [embed_one, embed_one_go, hcond, ht]
  · simp [embed_query, npArrayNums, hall]
  · simp [embed_one_calls, embed_one_go_calls, hcond, ht]

/-- Witness for C6 amended at the one-entry vector. -/
theorem embed_paths_amended_witness :
    is_vector_ok [PyNum.num 1] = true ∧
    (embed_one (some "q")
        (fun _ => EmbStep.resp (Resp.objEmb (EmbField.withValues [PyNum.num 1])))
      = some [PyNum.num 1] ∧
    embed_query (EmbStep.resp (Resp.objEmb (EmbField.withValues [PyNum.num 1])))
      = some [PyNum.num 1] ∧
    embed_one_calls (some "q")
        (fun _ => EmbStep.resp (Resp.objEmb (EmbField.withValues [PyNum.num 1]))) = 1 ∧
    embed_one_calls (some "q") (fun _ => EmbStep.exn) = 3) :=
  ⟨by decide, embed_paths_amended [PyNum.num 1] (by decide)⟩

/-! ### Properties of the flat search (claims C1, C2, C3) -/

theorem rankAll_length (xb : List (List R)) (q : List R) :
    (rankAll xb q).length = xb.length := by
  unfold rankAll
  rw [(List.perm_insertionSort simRel _).length_eq]
  simp

theorem rankAll_fst_lt (xb : List (List R)) (q : List R) :
    ∀ p ∈ rankAll xb q, p.1 < xb.length := by
  intro p hp
  have hmem : p ∈ (xb.map (fun v => dot q v)).enum :=
    (List.perm_insertionSort simRel _).mem_iff.mp hp
  have hget := List.mem_enum_iff_get?.mp hmem
  have hlt : p.1 < (xb.map (fun v => dot q v)).length := by
    by_contra hge
    rw [List.get?_eq_none.mpr (Nat.le_of_not_lt hge)] at hget
    exact Option.noConfusion hget
  simpa using hlt

theorem rankAll_fst_nodup (xb : List (List R)) (q : List R) :
    ((rankAll xb q).map Prod.fst).Nodup := by
  have hperm :=
    (List.perm_insertionSort simRel ((xb.map (fun v => dot q v)).enum)).map Prod.fst
  rw [List.enum_map_fst] at hperm
  exact hperm.nodup_iff.mpr (List.nodup_range _)

theorem rankAll_pairwise (xb : List (List R)) (q : List R) :
    (rankAll xb q).Pairwise
      (fun a b : Nat × R => b.2 ≤ a.2 ∧ (a.2 = b.2 → a.1 < b.1)) := by
  have hs : (rankAll xb q).Pairwise simRel := List.sorted_insertionSort simRel _
  have hne : (rankAll xb q).Pairwise (fun a b : Nat × R => a.1 ≠ b.1) :=
    List.pairwise_map.mp (rankAll_fst_nodup xb q)
  refine List.Pairwise.imp₂ ?_ hs hne
  intro a b hsim hne1
  rcases hsim with hlt | ⟨heq, hle⟩
  · exact ⟨le_of_lt hlt, fun heq => absurd hlt (by rw [heq]; exact lt_irrefl _)⟩
  · exact ⟨le_of_eq heq.symm, fun _ => Nat.lt_of_le_of_ne hle hne1⟩

theorem topk_length (xb : List (List R)) (q : List R) (k : Nat) :
    (topk xb q k).length = k := by
  unfold topk
  rw [List.length_append, List.length_replicate, List.length_map,
      List.length_take, rankAll_length]
  omega

theorem topk_labels (xb : List (List R)) (q : List R) (k : Nat) :
    ∀ p ∈ topk xb q k, (0 ≤ p.1 ∧ p.1 < (xb.length : Int)) ∨ p.1 = -1 := by
  intro p hp
  unfold topk at hp
  rcases List.mem_append.mp hp with hp | hp
  · obtain ⟨n, hn, hpn⟩ := List.mem_map.mp hp
    have hmem : n ∈ rankAll xb q := (List.take_sublist k _).subset hn
    have hlt := rankAll_fst_lt xb q n hmem
    rw [← hpn]
    refine Or.inl ⟨?_, ?_⟩
    · show (0 : Int) ≤ (n.1 : Int)
      exact_mod_cast Nat.zero_le _
    · show (n.1 : Int) < (xb.length : Int)
      exact_mod_cast hlt
  · rw [List.eq_of_mem_replicate hp]
    exact Or.inr rfl

theorem topk_no_pad (xb : List (List R)) (q : List R) (k : Nat)
    (hk : k ≤ xb.length) :
    topk xb q k = ((rankAll xb q).take k).map (fun p => ((p.1 : Int), p.2)) := by
  have hlen : ((rankAll xb q).take k).length = k := by
    rw [List.length_take, rankAll_length]
    omega
  unfold topk
  rw [hlen, Nat.sub_self, List.replicate_zero, List.append_nil]

theorem topk_sorted (xb : List (List R)) (q : List R) (k : Nat)
    (hk : k ≤ xb.length) :
    (topk xb q k).Pairwise
      (fun a b : Int × R => b.2 ≤ a.2 ∧ (a.2 = b.2 → a.1 < b.1)) := by
  rw [topk_no_pad xb q k hk]
  apply List.pairwise_map.mpr
  have hp : ((rankAll xb q).take k).Pairwise
      (fun a b : Nat × R => b.2 ≤ a.2 ∧ (a.2 = b.2 → a.1 < b.1)) :=
    List.Pairwise.sublist (List.take_sublist k _) (rankAll_pairwise xb q)
  exact hp.imp (fun {a b} hab =>
    ⟨hab.1, fun he => (by exact_mod_cast hab.2 he : (a.1 : Int) < (b.1 : Int))⟩)

theorem ilocAll_total (m : List α) :
    ∀ labels : List Int,
      (∀ i ∈ labels, (0 ≤ i ∧ i < (m.length : Int)) ∨ (i = -1 ∧ 0 < m.length)) →
      ∃ rows, ilocAll m labels = some rows ∧ rows.length = labels.length := by
  intro labels
  induction labels with
  | nil => exact fun _ => ⟨[], rfl, rfl⟩
  | cons i is_ ih =>
    intro hv
    obtain ⟨rows, hrows, hlen⟩ := ih (fun j hj => hv j (List.mem_cons_of_mem i hj))
    have hiloc : ∃ a, iloc m i = some a := by
      rcases hv i (List.mem_cons_self i is_) with ⟨h0, hlt⟩ | ⟨hneg, hpos⟩
      · have hpp : pyPos m.length i = i := by
          unfold pyPos
          rw [if_neg (by omega)]
        unfold iloc
        rw [hpp, if_pos ⟨h0, hlt⟩]
        cases hg : m.get? i.toNat with
        | none =>
          have := List.get?_eq_none.mp hg
          omega
        | some a => exact ⟨a, rfl⟩
      · have hpp : pyPos m.length i = (m.length : Int) - 1 := by
          unfold pyPos
          rw [hneg, if_pos (by omega)]
          omega
        unfold iloc
        rw [hpp, if_pos (by constructor <;> omega)]
        cases hg : m.get? ((m.length : Int) - 1).toNat with
        | none =>
          have := List.get?_eq_none.mp hg
          omega
        | some a => exact ⟨a, rfl⟩
    obtain ⟨a, ha⟩ := hiloc
    refine ⟨a :: rows, ?_, by simp [hlen]⟩
    unfold ilocAll
    rw [ha, hrows]

/-- C1 counterexample: with a failed query embedding, recommend_by_text
returns Python None — a non-result sentinel — and not an empty result, so
the claim is false of the recommend operation in recommend.py. -/
theorem recommend_by_text_sentinel_counterexample :
    recommend_by_text (R := Int) id ["A"] ⟨1, [[1]]⟩ none 5 = .ok none ∧
    (Except.ok Option.none : Except AppErr (Option (List (String × Int))))
      ≠ .ok (some []) :=
  ⟨rfl, by simp⟩

/-- C1 amended: on a failed query embedding neither path raises; the UI
recommend returns an empty result, while recommend_by_text returns the
sentinel None. -/
theorem embed_failure_amended (nrm : List R → List R) (mapping : List α)
    (idx : FIndex R) (k : Int) :
    recommendApp nrm mapping idx none k = .ok [] ∧
    recommend_by_text nrm mapping idx none k = .ok none :=
  ⟨rfl, rfl⟩

/-- C2 counterexample: a one-vector index queried with k = 2 returns two
entries — the padding label -1 is silently joined to the last metadata
row — so k is not treated as N. -/
theorem no_clamp_counterexample :
    recommendApp (R := Int) id ["A"] ⟨1, [[1]]⟩ (some [1]) 2
      = .ok [("A", 1), ("A", padSim)] ∧
    ([("A", (1 : Int)), ("A", padSim)].length ≠ 1) :=
  ⟨rfl, by simp⟩

/-- C2 amended: when the query embedding succeeded and its vector has the
index dimension, a non-positive k makes the underlying search raise (the
code defines no InvalidArgumentError; the faiss assertion k > 0 fails),
so the call fails rather than returning a result; and k is not clamped:
for k greater than the number N of stored vectors the call returns k
entries, not N. -/
theorem recommend_k_amended (nrm : List R → List R) (mapping : List α)
    (idx : FIndex R) (q : List R) (k : Int)
    (hd : (nrm q).length = idx.d) (hm : mapping.length = idx.xb.length) :
    (k ≤ 0 → recommendApp nrm mapping idx (some q) k = .error .searchRaised) ∧
    (0 < idx.xb.length → (idx.xb.length : Int) < k →
      ∃ rows, recommendApp nrm mapping idx (some q) k = .ok rows ∧
        rows.length = k.toNat) := by
  constructor
  · intro hk
    have hs : faissSearch idx (nrm q) k = .error .kNonPositive := by
      unfold faissSearch
      rw [if_neg (fun hne => hne hd), if_pos hk]
    simp [recommendApp, hs]
  · intro hN hk
    have hk0 : ¬ k ≤ 0 := by omega
    have hs : faissSearch idx (nrm q) k = .ok (topk idx.xb (nrm q) k.toNat) := by
      unfold faissSearch
      rw [if_neg (fun hne => hne hd), if_neg hk0]
    have hlabels : ∀ i ∈ (topk idx.xb (nrm q) k.toNat).map Prod.fst,
        (0 ≤ i ∧ i < (mapping.length : Int)) ∨ (i = -1 ∧ 0 < mapping.length) := by
      intro i hi
      obtain ⟨p, hp, hpi⟩ := List.mem_map.mp hi
      rcases topk_labels idx.xb (nrm q) k.toNat p hp with ⟨h0, hlt⟩ | hm1
      · refine Or.inl ⟨hpi ▸ h0, ?_⟩
        rw [← hpi, hm]
        exact hlt
      · exact Or.inr ⟨hpi ▸ hm1, by omega⟩
    obtain ⟨rows, hrows, hlen⟩ := ilocAll_total mapping _ hlabels
    refine ⟨rows.zip ((topk idx.xb (nrm q) k.toNat).map Prod.snd), ?_, ?_⟩
    · simp [recommendApp, hs, hrows]
    · rw [List.length_zip, hlen, List.length_map, List.length_map, topk_length]
      omega

/-- Witness for C2 amended: a one-vector index with k = -1 fails, and
with k = 2 returns two rows. -/
theorem recommend_k_amended_witness :
    recommendApp (R := Int) id ["A"] ⟨1, [[1]]⟩ (some [1]) (-1)
      = .error .searchRaised ∧
    ∃ rows, recommendApp (R := Int) id ["A"] ⟨1, [[1]]⟩ (some [1]) 2 = .ok rows ∧
      rows.length = (2 : Int).toNat :=
  ⟨(recommend_k_amended id ["A"] ⟨1, [[1]]⟩ [1] (-1) rfl rfl).1 (by decide),
   (recommend_k_amended id ["A"] ⟨1, [[1]]⟩ [1] 2 rfl rfl).2 (by decide) (by decide)⟩

/-- C3 counterexample: a successful call on a one-vector index with k = 3
returns three entries, exceeding min(k, N) = 1, so the bound in the claim
fails as stated. -/
theorem min_bound_counterexample :
    recommendApp (R := Int) id ["A"] ⟨1, [[2]]⟩ (some [1]) 3
      = .ok [("A", 2), ("A", padSim), ("A", padSim)] ∧
    ¬ ([("A", (2 : Int)), ("A", padSim), ("A", padSim)].length ≤ min 3 1) :=
  ⟨rfl, by simp⟩

/-- C3 amended: for 0 < k ≤ N (and a query of the right dimension), the
call succeeds with exactly k = min(k, N) rows; the search scores are
non-increasing, and entries with equal score are ordered by the insertion
index of their vectors. -/
theorem recommend_ranking_amended (nrm : List R → List R) (mapping : List α)
    (idx : FIndex R) (q : List R) (k : Int)
    (hd : (nrm q).length = idx.d) (hm : mapping.length = idx.xb.length)
    (hk0 : 0 < k) (hkN : k.toNat ≤ idx.xb.length) :
    ∃ pairs rows,
      faissSearch idx (nrm q) k = .ok pairs ∧
      recommendApp nrm mapping idx (some q) k = .ok rows ∧
      rows.length = k.toNat ∧
      rows.length ≤ min k.toNat idx.xb.length ∧
      rows.map Prod.snd = pairs.map Prod.snd ∧
      pairs.Pairwise (fun a b => b.2 ≤ a.2 ∧ (a.2 = b.2 → a.1 < b.1)) ∧
      (rows.map Prod.snd).Pairwise (fun a b => b ≤ a) := by
  have hk0' : ¬ k ≤ 0 := by omega
  have hs : faissSearch idx (nrm q) k = .ok (topk idx.xb (nrm q) k.toNat) := by
    unfold faissSearch
    rw [if_neg (fun hne => hne hd), if_neg hk0']
  have hN : 0 < idx.xb.length := by omega
  have hlabels : ∀ i ∈ (topk idx.xb (nrm q) k.toNat).map Prod.fst,
      (0 ≤ i ∧ i < (mapping.length : Int)) ∨ (i = -1 ∧ 0 < mapping.length) := by
    intro i hi
    obtain ⟨p, hp, hpi⟩ := List.mem_map.mp hi
    rcases topk_labels idx.xb (nrm q) k.toNat p hp with ⟨h0, hlt⟩ | hm1
    · refine Or.inl ⟨hpi ▸ h0, ?_⟩
      rw [← hpi, hm]
      exact hlt
    · exact Or.inr ⟨hpi ▸ hm1, by omega⟩
  obtain ⟨rows, hrows, hlen⟩ := ilocAll_total mapping _ hlabels
  have hlen2 : rows.length = k.toNat := by
    rw [hlen, List.length_map, topk_length]
  have hsnd : (rows.zip ((topk idx.xb (nrm q) k.toNat).map Prod.snd)).map Prod.snd
      = (topk idx.xb (nrm q) k.toNat).map Prod.snd := by
    apply List.map_snd_zip
    rw [hlen2, List.length_map, topk_length]
  have hsorted := topk_sorted idx.xb (nrm q) k.toNat hkN
  refine ⟨topk idx.xb (nrm q) k.toNat,
          rows.zip ((topk idx.xb (nrm q) k.toNat).map Prod.snd),
          hs, ?_, ?_, ?_, hsnd, hsorted, ?_⟩
  · simp [recommendApp, hs, hrows]
  · rw [List.length_zip, hlen2, List.length_map, topk_length]
    omega
  · rw [List.length_zip, hlen2, List.length_map, topk_length]
    omega
  · rw [hsnd]
    exact List.pairwise_map.mpr (hsorted.imp (fun hab => hab.1))

/-- Witness for C3 amended: a two-vector index queried with k = 2. -/
theorem recommend_ranking_amended_witness :
    ∃ pairs rows,
      faissSearch (⟨1, [[1], [0]]⟩ : FIndex Int) (id [1]) 2 = .ok pairs ∧
      recommendApp (R := Int) id ["A", "B"] ⟨1, [[1], [0]]⟩ (some [1]) 2 = .ok rows ∧
      rows.length = (2 : Int).toNat ∧
      rows.length ≤ min (2 : Int).toNat (⟨1, [[1], [0]]⟩ : FIndex Int).xb.length ∧
      rows.map Prod.snd = pairs.map Prod.snd ∧
      pairs.Pairwise (fun a b => b.2 ≤ a.2 ∧ (a.2 = b.2 → a.1 < b.1)) ∧
      (rows.map Prod.snd).Pairwise (fun a b => b ≤ a) :=
  recommend_ranking_amended id ["A", "B"] ⟨1, [[1], [0]]⟩ [1] 2 rfl rfl
    (by decide) (by decide)

end CineBrain
